import Mathlib

/-!
Verification of the cpusim instruction-set simulator (`src/main.rs`).

The development shallowly embeds the Rust program: machine words, registers
and memory cells are `Nat` values (with explicit `% 2 ^ 32` style bounds where
overflow matters), the processor state is an explicit structure, and every
fallible operation (out-of-bounds array indexing, unsigned underflow, `i32`
overflow — all of which abort a checked Rust build) is modelled by `Option`,
with `none` standing for a panic.
-/

namespace CpuSim

/-- Bitwise complement on an unsigned 32-bit value, as Rust's `!x` on `u32`.
For `x < 2 ^ 32` the subtraction from the all-ones word never borrows, so this
is the exact bitwise complement. -/
def u32_not (x : Nat) : Nat := 2 ^ 32 - 1 - x

/-- Opcode field of an instruction word, from `execute_instruction`
(main.rs line 48): `let opcode = instruction >> 18`. -/
def decode_opcode (instruction : Nat) : Nat := instruction >>> 18

/-- Operand mask from `execute_instruction` (main.rs line 49): the Rust
expression `!(0b1111 << 18)` evaluated on `u32`. -/
def operand_mask : Nat := u32_not (0b1111 <<< 18)

/-- Operand field of an instruction word, from `execute_instruction`
(main.rs line 49): `let operand = instruction & (!(0b1111 << 18))`. -/
def decode_operand (instruction : Nat) : Nat := instruction &&& operand_mask

/-- Word built by the assembler (main.rs lines 301-303 and each operand arm):
the opcode is shifted into bits 18-21 and or-ed with the operand bits
(`output_ins <<= 18; output_ins | operand`). -/
def encode (opcode operand : Nat) : Nat := (opcode <<< 18) ||| operand

/-- Register-index mask in the load-immediate arm of `execute_instruction`
(main.rs line 63): the Rust expression `!(0b1111 << 2)` evaluated on `u32`.
Note that this keeps bits 6-31 of the operand, not only bits 0-1. -/
def ldi_register_mask : Nat := u32_not (0b1111 <<< 2)

/-- Processor state (main.rs lines 8-15).  `ram` and `registers` are the
fixed arrays `[u32; 64]` and `[u32; 4]`; the `debug` field only controls
printing and is omitted. -/
structure Processor where
  program_counter : Nat
  ram : List Nat
  flag_register : Nat
  registers : List Nat
  halt : Bool
  deriving DecidableEq

/-- Fresh processor, from `Processor::new` (main.rs lines 18-27): zeroed
registers, zeroed 64-word ram, pc 0, flag 0, not halted. -/
def Processor.new : Processor :=
  { program_counter := 0
    ram := List.replicate 64 0
    flag_register := 0
    registers := List.replicate 4 0
    halt := false }

/-- Reinterpretation of a `u32` bit pattern as an `i32`, as Rust's `as i32`
cast (used by the compare arm, main.rs line 104). -/
def toI32 (x : Nat) : Int := if x < 2 ^ 31 then (x : Int) else (x : Int) - 2 ^ 32

/-- Write to the register file.  `self.registers[i] = v` panics when
`i ≥ 4`; the panic is modelled by `none`. -/
def write_reg (p : Processor) (i v : Nat) : Option Processor :=
  if i < p.registers.length then some { p with registers := p.registers.set i v } else none

/-- Instruction fetch, from `fetch_instruction` (main.rs lines 41-43):
`self.ram[self.program_counter]`, a panic (`none`) when the pc is out of
range. -/
def fetch_instruction (p : Processor) : Option Nat := p.ram[p.program_counter]?

/-- Dispatch on the decoded opcode: the `match opcode` of
`execute_instruction` (main.rs lines 60-218), one branch per arm, with the
default arm leaving the state unchanged.  Arithmetic that a checked Rust
build would abort on (u32 overflow and underflow in `add`/`sub`, `i32`
overflow in `cmp`, usize underflow of `target - 1` in the conditional
jumps) and out-of-bounds indexing are modelled by `none`. -/
def dispatch (p : Processor) (opcode operand : Nat) : Option Processor :=
  if opcode = 1 then
    let immediate_value := operand >>> 2
    let target_register := operand &&& ldi_register_mask
    write_reg p target_register immediate_value
  else if opcode = 2 then
    let reg_a := operand >>> 4
    let reg_b := (operand &&& 0b001100) >>> 2
    let reg_c := operand &&& 0b000011
    match p.registers[reg_a]?, p.registers[reg_b]? with
    | some va, some vb =>
        if va + vb < 2 ^ 32 then write_reg p reg_c (va + vb) else none
    | _, _ => none
  else if opcode = 3 then
    let reg_a := operand >>> 4
    let reg_b := (operand &&& 0b001100) >>> 2
    let reg_c := operand &&& 0b000011
    match p.registers[reg_a]?, p.registers[reg_b]? with
    | some va, some vb =>
        if vb ≤ va then write_reg p reg_c (va - vb) else none
    | _, _ => none
  else if opcode = 4 then
    let immed_compare := operand >>> 2
    let register_addr := operand &&& 0b11
    match p.registers[register_addr]? with
    | some v =>
        let result : Int := toI32 v - toI32 immed_compare
        if result < -(2 ^ 31) ∨ 2 ^ 31 ≤ result then none
        else if 0 < result then some { p with flag_register := 1 }
        else if result = 0 then some { p with flag_register := 2 }
        else if result < 0 then some { p with flag_register := 3 }
        else some { p with flag_register := 0 }
    | none => none
  else if opcode = 5 then
    let jump_addr := operand &&& 0b11111
    some { p with program_counter := jump_addr }
  else if opcode = 6 then
    let jump_addr := operand &&& 0b11111
    if p.flag_register = 2 then
      if jump_addr = 0 then none
      else some { p with program_counter := jump_addr - 1, flag_register := 0 }
    else some p
  else if opcode = 7 then
    let jump_addr := operand &&& 0b11111
    if p.flag_register = 1 then
      if jump_addr = 0 then none
      else some { p with program_counter := jump_addr - 1, flag_register := 0 }
    else some p
  else if opcode = 8 then
    let jump_addr := operand &&& 0b11111
    if p.flag_register = 3 then
      if jump_addr = 0 then none
      else some { p with program_counter := jump_addr - 1, flag_register := 0 }
    else some p
  else if opcode = 9 then
    let reg_addr := operand &&& 0b11
    let ram_addr := (operand &&& (0b111111 <<< 2)) >>> 2
    match p.registers[reg_addr]? with
    | some v =>
        if ram_addr < p.ram.length then some { p with ram := p.ram.set ram_addr v } else none
    | none => none
  else if opcode = 10 then
    let reg_addr := operand &&& 0b11
    let ram_addr := (operand &&& (0b111111 <<< 2)) >>> 2
    match p.ram[ram_addr]? with
    | some v => write_reg p reg_addr v
    | none => none
  else if opcode = 15 then
    some { p with halt := true }
  else
    some p

/-- One instruction execution, from `execute_instruction` (main.rs lines
45-219): fetch the word at the pc, split it into opcode and operand, and
dispatch on the opcode. -/
def execute_instruction (p : Processor) : Option Processor :=
  match fetch_instruction p with
  | none => none
  | some instruction => dispatch p (decode_opcode instruction) (decode_operand instruction)

/-- Outcome of one iteration of the `run` loop body: either the loop
continues with a new state or it finishes with a final state. -/
inductive StepResult where
  | next (p : Processor) : StepResult
  | finished (p : Processor) : StepResult
  deriving DecidableEq

/-- One iteration of the `run` loop (main.rs lines 229-248): execute the
instruction at the pc, then — the cycle epilogue — if the pc is 63 or the
halt flag is set, reset the pc to 0 and the halt flag to false and finish;
otherwise increment the pc and continue. -/
def step (p : Processor) : Option StepResult :=
  match execute_instruction p with
  | none => none
  | some q =>
      if q.program_counter = 63 ∨ q.halt = true then
        some (StepResult.finished { q with program_counter := 0, halt := false })
      else
        some (StepResult.next { q with program_counter := q.program_counter + 1 })

/-- Fuelled version of the `run` loop: `none` when the fuel runs out before
the loop finishes (or an iteration panics), otherwise the final state. -/
def run_loop : Nat → Processor → Option Processor
  | 0, _ => none
  | fuel + 1, p =>
      match step p with
      | none => none
      | some (StepResult.finished q) => some q
      | some (StepResult.next q) => run_loop fuel q

/-- Program loading, from `load_program` (main.rs lines 35-39): the words
are copied into ram starting at index 0. -/
def load_program (ram : List Nat) : List Nat → Nat → List Nat
  | [], _ => ram
  | w :: ws, i => load_program (ram.set i w) ws (i + 1)

/-- The `run` entry point (main.rs lines 221-253): load the program, then
iterate the loop.  Loading a program longer than ram panics in Rust
(`self.ram[i]` out of bounds), modelled by `none`. -/
def run (p : Processor) (bin : List Nat) (fuel : Nat) : Option Processor :=
  if bin.length ≤ p.ram.length then
    run_loop fuel { p with ram := load_program p.ram bin 0 }
  else none

/-- Little-endian byte decomposition of a 32-bit word, as Rust's
`u32::to_le_bytes` (main.rs line 546). -/
def to_le_bytes (w : Nat) : List Nat :=
  [w % 2 ^ 8, w / 2 ^ 8 % 2 ^ 8, w / 2 ^ 16 % 2 ^ 8, w / 2 ^ 24 % 2 ^ 8]

/-- Word reassembly from four little-endian bytes, as Rust's
`u32::from_le_bytes` (main.rs line 554). -/
def from_le_bytes (b0 b1 b2 b3 : Nat) : Nat :=
  b0 + b1 * 2 ^ 8 + b2 * 2 ^ 16 + b3 * 2 ^ 24

/-- Serializer, from `machine_code_as_bin_raw` (main.rs lines 545-548):
each word flat-mapped to its four little-endian bytes. -/
def machine_code_as_bin_raw : List Nat → List Nat
  | [] => []
  | w :: ws => to_le_bytes w ++ machine_code_as_bin_raw ws

/-- Deserializer, from `bin_raw_as_machine_code` (main.rs lines 551-557):
`chunks_exact(4)` yields the complete four-byte chunks from the front and
silently drops the remainder, and each chunk becomes one word. -/
def bin_raw_as_machine_code : List Nat → List Nat
  | b0 :: b1 :: b2 :: b3 :: rest => from_le_bytes b0 b1 b2 b3 :: bin_raw_as_machine_code rest
  | _ => []

/-- Mnemonic-to-opcode table of the assembler, from the `match terms[0]`
in `assemble` (main.rs lines 286-299); an unrecognized mnemonic leaves the
opcode variable at its initial 0. -/
def mnemonic_opcode (s : String) : Nat :=
  if s = "ldi" then 1
  else if s = "add" then 2
  else if s = "sub" then 3
  else if s = "cmp" then 4
  else if s = "jmp" then 5
  else if s = "jeq" then 6
  else if s = "jgt" then 7
  else if s = "jlt" then 8
  else if s = "sto" then 9
  else if s = "lod" then 10
  else if s = "hlt" then 15
  else 0

/-- Short disassembler mnemonic, from `get_opcode_name` (main.rs lines
446-468). -/
def get_opcode_name (opcode : Nat) (use_uppercase : Bool) : String :=
  let name :=
    if opcode = 0 then "nop"
    else if opcode = 1 then "ldi"
    else if opcode = 2 then "add"
    else if opcode = 3 then "sub"
    else if opcode = 4 then "cmp"
    else if opcode = 5 then "jmp"
    else if opcode = 6 then "jgt"
    else if opcode = 7 then "jeq"
    else if opcode = 8 then "jlt"
    else if opcode = 9 then "sto"
    else if opcode = 10 then "lod"
    else if opcode = 15 then "hlt"
    else ""
  if use_uppercase then name.toUpper else name

/-- Long disassembler name, from `get_opcode_name_long` (main.rs lines
470-489), without the trailing newline appended at line 487. -/
def get_opcode_name_long (opcode : Nat) : String :=
  if opcode = 0 then "NO-OP"
  else if opcode = 1 then "LOAD IMMEDIATE"
  else if opcode = 2 then "ADD"
  else if opcode = 3 then "SUBTRACT"
  else if opcode = 4 then "COMPARE"
  else if opcode = 5 then "JUMP"
  else if opcode = 6 then "JUMP IF GREATER THAN"
  else if opcode = 7 then "JUMP IF EQUAL"
  else if opcode = 8 then "JUMP IF LESS THAN"
  else if opcode = 9 then "STORE"
  else if opcode = 10 then "LOAD"
  else if opcode = 15 then "HALT"
  else ""

/-- Test fixture: a fresh processor with the flag pre-set to 3 (less-than)
whose ram holds the single instruction `jlt 2`, i.e. the word `encode 8 2`. -/
def jlt2_processor : Processor :=
  { Processor.new with
      ram := (List.replicate 64 0).set 0 (encode 8 2)
      flag_register := 3 }

/-- Test fixture: a fresh processor with `registers[2] = 8` whose ram holds
the single instruction `cmp 8 r2`, i.e. the word `encode 4 (8 <<< 2 ||| 2)`. -/
def cmp8_processor : Processor :=
  { Processor.new with
      ram := (List.replicate 64 0).set 0 (encode 4 ((8 <<< 2) ||| 2))
      registers := [0, 0, 8, 0] }

/-- Test fixture: a fresh processor with `registers[1] = 2 ^ 31` whose ram
holds the single instruction `cmp 5 r1`, i.e. the word
`encode 4 (5 <<< 2 ||| 1)`.  The compare arm's `i32` subtraction overflows
on this state. -/
def cmp_overflow_processor : Processor :=
  { Processor.new with
      ram := (List.replicate 64 0).set 0 (encode 4 ((5 <<< 2) ||| 1))
      registers := [0, 2 ^ 31, 0, 0] }

/-- Test fixture: a fresh processor whose ram holds the single instruction
`ldi 16 r0`, i.e. the word `encode 1 (16 <<< 2 ||| 0) = 262208`. -/
def ldi16_processor : Processor :=
  { Processor.new with ram := (List.replicate 64 0).set 0 (encode 1 ((16 <<< 2) ||| 0)) }

/-- Test fixture: a fresh processor whose ram holds the single instruction
`jmp 5`, i.e. the word `encode 5 5`. -/
def jmp5_processor : Processor :=
  { Processor.new with ram := (List.replicate 64 0).set 0 (encode 5 5) }

/-- Test fixture: a fresh processor with the flag pre-set to 2 (equal) whose
ram holds the single instruction `jeq 0`, i.e. the word `encode 6 0`. -/
def jeq0_processor : Processor :=
  { Processor.new with
      ram := (List.replicate 64 0).set 0 (encode 6 0)
      flag_register := 2 }


/-- Bit-level helper: or-ing a value shifted left by `k` with a `k`-bit value
is addition, since the bit ranges are disjoint. -/
theorem lor_shiftLeft_add (a b k : Nat) (h : b < 2 ^ k) : (a <<< k) ||| b = a * 2 ^ k + b := by
  apply Nat.eq_of_testBit_eq
  intro i
  rw [Nat.testBit_lor, Nat.testBit_shiftLeft]
  rcases Nat.lt_or_ge i k with hik | hik
  · have h1 : ¬ (i ≥ k) := Nat.not_le.mpr hik
    have h2 : (a * 2 ^ k + b) / 2 ^ i = 2 ^ (k - i) * a + b / 2 ^ i := by
      have hk : a * 2 ^ k + b = 2 ^ i * (2 ^ (k - i) * a) + b := by
        rw [← Nat.mul_assoc, ← Nat.pow_add]
        have hik2 : i + (k - i) = k := by omega
        rw [hik2]; ring
      rw [hk, Nat.mul_add_div (by positivity)]
    have h3 : 2 ^ (k - i) * a % 2 = 0 := by
      have : (2 : Nat) ∣ 2 ^ (k - i) * a := Dvd.dvd.mul_right (dvd_pow_self 2 (by omega)) a
      omega
    simp only [h1, decide_False, Bool.false_and, Bool.false_or]
    rw [Nat.testBit_to_div_mod, Nat.testBit_to_div_mod, h2, decide_eq_decide]
    omega
  · have h1 : b.testBit i = false :=
      Nat.testBit_eq_false_of_lt (lt_of_lt_of_le h (Nat.pow_le_pow_right (by norm_num) hik))
    have h3 : (a * 2 ^ k + b) / 2 ^ i = a / 2 ^ (i - k) := by
      have hi : (2 : Nat) ^ i = 2 ^ k * 2 ^ (i - k) := by
        rw [← Nat.pow_add]; congr 1; omega
      rw [hi, ← Nat.div_div_eq_div_mul]
      have hin : a * 2 ^ k + b = 2 ^ k * a + b := by ring
      rw [hin, Nat.mul_add_div (by positivity), Nat.div_eq_of_lt h, Nat.add_zero]
    simp only [hik, decide_True, Bool.true_and, h1, Bool.or_false]
    rw [Nat.testBit_to_div_mod, Nat.testBit_to_div_mod, h3]

/-- On words of at most 22 bits the operand mask keeps exactly the low 18
bits: bits 18-21 are cleared and there are no bits above 21 to keep. -/
theorem decode_operand_small (x : Nat) (hx : x < 2 ^ 22) : decode_operand x = x % 2 ^ 18 := by
  apply Nat.eq_of_testBit_eq
  intro i
  rw [decode_operand, Nat.testBit_land, Nat.testBit_mod_two_pow]
  rcases Nat.lt_or_ge i 22 with hi | hi
  · have hall : ∀ j, j < 22 → operand_mask.testBit j = decide (j < 18) := by decide
    rw [hall i hi, Bool.and_comm]
  · have hx' : x.testBit i = false :=
      Nat.testBit_eq_false_of_lt (lt_of_lt_of_le hx (Nat.pow_le_pow_right (by norm_num) hi))
    simp [hx']

/-- Encoding is arithmetic: shifting the opcode and or-ing in an 18-bit
operand is `opcode * 2 ^ 18 + operand`. -/
theorem encode_eq (opcode operand : Nat) (h : operand < 2 ^ 18) :
    encode opcode operand = opcode * 2 ^ 18 + operand :=
  lor_shiftLeft_add opcode operand 18 h

/-- Decoding recovers the opcode of an encoded word. -/
theorem decode_opcode_encode (opcode operand : Nat) (h : operand < 2 ^ 18) :
    decode_opcode (encode opcode operand) = opcode := by
  rw [encode_eq _ _ h, decode_opcode, Nat.shiftRight_eq_div_pow]
  have hin : opcode * 2 ^ 18 + operand = 2 ^ 18 * opcode + operand := by ring
  rw [hin, Nat.mul_add_div (by positivity), Nat.div_eq_of_lt h, Nat.add_zero]

/-- Decoding recovers the operand of an encoded word. -/
theorem decode_operand_encode (opcode operand : Nat) (hop : opcode < 16) (h : operand < 2 ^ 18) :
    decode_operand (encode opcode operand) = operand := by
  have h18 : (2 : Nat) ^ 18 = 262144 := by norm_num
  have h22 : (2 : Nat) ^ 22 = 4194304 := by norm_num
  have hlt : encode opcode operand < 2 ^ 22 := by
    rw [encode_eq _ _ h]; rw [h18] at h ⊢; rw [h22]
    have : opcode * 262144 ≤ 15 * 262144 := Nat.mul_le_mul_right _ (by omega)
    omega
  rw [decode_operand_small _ hlt, encode_eq _ _ h]
  rw [h18] at h ⊢
  omega

/-- Masking with 31 is reduction modulo 32. -/
theorem land_31 (x : Nat) : x &&& 31 = x % 32 := by
  have h := Nat.and_pow_two_sub_one_eq_mod x 5
  norm_num at h
  exact h

/-- Masking with 3 is reduction modulo 4. -/
theorem land_3 (x : Nat) : x &&& 3 = x % 4 := by
  have h := Nat.and_pow_two_sub_one_eq_mod x 2
  norm_num at h
  exact h

/-- Unfolding lemma: when the fetch succeeds, execution is dispatch on the
decoded fields of the fetched word. -/
theorem execute_eq (p : Processor) (w : Nat) (hw : fetch_instruction p = some w) :
    execute_instruction p = dispatch p (decode_opcode w) (decode_operand w) := by
  rw [execute_instruction, hw]

/-- Execution of a conditional jump (opcodes 6, 7, 8 with matching flag
codes 2, 1, 3): if the flag matches, the pc becomes `target - 1` and the
flag is cleared; otherwise the state is returned unchanged.  The target
must be at least 1, or the usize subtraction underflows. -/
theorem cond_jump_spec (p : Processor) (op c t : Nat)
    (hop : (op = 6 ∧ c = 2) ∨ (op = 7 ∧ c = 1) ∨ (op = 8 ∧ c = 3))
    (ht1 : 1 ≤ t) (ht : t < 32)
    (hw : fetch_instruction p = some (encode op t)) :
    execute_instruction p =
      some (if p.flag_register = c
        then { p with program_counter := t - 1, flag_register := 0 }
        else p) := by
  have h18 : t < 2 ^ 18 := by
    have : (32 : Nat) ≤ 2 ^ 18 := by norm_num
    omega
  have hland : t &&& 31 = t := by rw [land_31]; omega
  have ht0 : ¬ (t = 0) := by omega
  rcases hop with ⟨ho, hc⟩ | ⟨ho, hc⟩ | ⟨ho, hc⟩ <;> subst ho <;> subst hc <;>
    rw [execute_eq p _ hw, decode_opcode_encode _ _ h18,
        decode_operand_encode _ _ (by norm_num) h18] <;>
    simp only [dispatch, hland] <;>
    norm_num <;>
    by_cases hf : p.flag_register = 2 <;>
    by_cases hf1 : p.flag_register = 1 <;>
    by_cases hf3 : p.flag_register = 3 <;>
    simp [hf, hf1, hf3, ht0]

/-- C1: for every opcode below 16 and operand below 2 ^ 18, decoding the
word built by the assembler (opcode in bits 18-21, operand in bits 0-17)
returns exactly that opcode (word shifted right by 18) and that operand
(word with the opcode bits masked off). -/
theorem C1_decode_encode_roundtrip (opcode operand : Nat)
    (hop : opcode < 16) (hoper : operand < 2 ^ 18) :
    decode_opcode (encode opcode operand) = opcode ∧
    decode_operand (encode opcode operand) = operand :=
  ⟨decode_opcode_encode _ _ hoper, decode_operand_encode _ _ hop hoper⟩

/-- Witness for C1 at opcode 9 and operand 131071. -/
theorem C1_decode_encode_roundtrip_witness :
    decode_opcode (encode 9 131071) = 9 ∧ decode_operand (encode 9 131071) = 131071 :=
  C1_decode_encode_roundtrip 9 131071 (by decide) (by decide)

/-- C2 (code bug): the load-immediate arm masks the destination register
with the 32-bit complement of `0b1111 << 2`, which keeps bits 6-31 of the
operand.  For the instruction `ldi 16 r0` the computed register index is
64, so execution indexes `registers` out of bounds and panics instead of
setting `registers[0] = 16` as the claim states. -/
theorem C2_load_immediate_bug :
    decode_operand (encode 1 ((16 <<< 2) ||| 0)) &&& ldi_register_mask = 64 ∧
    execute_instruction ldi16_processor = none := by
  constructor
  · decide
  · decide

/-- C3 (code bug): executing `jmp 5` sets the pc to 5 as the claim states,
but the cycle epilogue of the run loop then increments the pc for jump
instructions too, so the loop continues at address 6 and the next
instruction fetched is the one at address 6, not address 5.  Only the
conditional jumps compensate with `target - 1`. -/
theorem C3_jump_lands_past_target :
    execute_instruction jmp5_processor = some { jmp5_processor with program_counter := 5 } ∧
    step jmp5_processor = some (StepResult.next { jmp5_processor with program_counter := 6 }) := by
  constructor
  · decide
  · decide

/-- C4: a conditional jump (opcode 6 with flag code 2, 7 with 1, 8 with 3)
whose 5-bit target is at least 1: when the flag matches, execution sets the
pc to target - 1 and clears the flag, leaving registers, ram and halt
unchanged, and the +1 of the cycle epilogue then hands control to address
target; when the flag does not match, execution returns the state
unchanged and the cycle only advances the pc by 1. -/
theorem C4_conditional_jump (p : Processor) (op c t : Nat)
    (hop : (op = 6 ∧ c = 2) ∨ (op = 7 ∧ c = 1) ∨ (op = 8 ∧ c = 3))
    (ht1 : 1 ≤ t) (ht : t < 32)
    (hw : fetch_instruction p = some (encode op t))
    (hhalt : p.halt = false) :
    (p.flag_register = c →
      execute_instruction p = some { p with program_counter := t - 1, flag_register := 0 } ∧
      step p = some (StepResult.next { p with program_counter := t, flag_register := 0 })) ∧
    (p.flag_register ≠ c →
      execute_instruction p = some p ∧
      (p.program_counter ≠ 63 →
        step p = some (StepResult.next { p with program_counter := p.program_counter + 1 }))) := by
  have hspec := cond_jump_spec p op c t hop ht1 ht hw
  constructor
  · intro hf
    rw [if_pos hf] at hspec
    refine ⟨hspec, ?_⟩
    have h63 : ¬ (t - 1 = 63) := by omega
    have h11 : t - 1 + 1 = t := by omega
    simp [step, hspec, hhalt, h63, h11]
  · intro hf
    rw [if_neg hf] at hspec
    refine ⟨hspec, fun hpc => ?_⟩
    simp [step, hspec, hhalt, hpc]

/-- Witness for C4: the spec test program, `jlt 2` at address 0 with the
flag pre-set to less-than (3): execution sets the pc to 1 and clears the
flag, and the full cycle hands control to address 2. -/
theorem C4_conditional_jump_witness :
    execute_instruction jlt2_processor =
      some { jlt2_processor with program_counter := 1, flag_register := 0 } ∧
    step jlt2_processor =
      some (StepResult.next { jlt2_processor with program_counter := 2, flag_register := 0 }) :=
  (C4_conditional_jump jlt2_processor 8 3 2 (by norm_num) (by norm_num) (by norm_num)
    (by decide) (by decide)).1 (by decide)


/-- C5 counterexample: `cmp 5 r1` with `registers[1] = 2 ^ 31` sets no
flag at all, refuting the claim that compare always sets the flag to the
sign class of the signed difference.  The code computes
`registers[1] as i32 - 5 as i32`, i.e. `-2 ^ 31 - 5`, which overflows
`i32`: a checked build panics (modelled `none`; a release build would wrap
to a positive value and set flag 1 — either way not the 3 the claim
demands for a negative signed difference). -/
theorem C5_compare_overflow_cex :
    execute_instruction cmp_overflow_processor = none ∧
    cmp_overflow_processor.registers[1]? = some (2 ^ 31) ∧
    toI32 (2 ^ 31) - toI32 5 < -(2 ^ 31) := by
  refine ⟨?_, ?_, ?_⟩
  · decide
  · decide
  · decide

/-- C5 amended: executing a compare instruction (opcode 4) with 16-bit
immediate `imm` and register index `r` computes the signed difference
between the 32-bit register value (reinterpreted as `i32`, as the code
does) and the immediate, and — provided that subtraction does not
overflow `i32`, which the lower bound on the difference expresses; see
the counterexample for the overflowing inputs — sets the flag to 1 if the
difference is positive, 2 if it is zero and 3 if it is negative, leaving
everything else unchanged. -/
theorem C5_compare_flag (p : Processor) (imm r v : Nat)
    (himm : imm < 2 ^ 16) (hr : r < 4) (hv32 : v < 2 ^ 32)
    (hw : fetch_instruction p = some (encode 4 ((imm <<< 2) ||| r)))
    (hv : p.registers[r]? = some v)
    (hov : -(2 ^ 31) ≤ toI32 v - toI32 imm) :
    execute_instruction p =
      some { p with flag_register :=
        if 0 < toI32 v - toI32 imm then 1
        else if toI32 v - toI32 imm = 0 then 2
        else 3 } := by
  have hr4 : r < 2 ^ 2 := by omega
  have hoper : (imm <<< 2) ||| r = imm * 4 + r := by
    have h := lor_shiftLeft_add imm r 2 hr4
    norm_num at h
    exact h
  have h18 : imm * 4 + r < 2 ^ 18 := by
    have h16 : (2 : Nat) ^ 16 = 65536 := by norm_num
    have h18' : (2 : Nat) ^ 18 = 262144 := by norm_num
    rw [h16] at himm
    rw [h18']
    omega
  have hshift : (imm * 4 + r) >>> 2 = imm := by
    rw [Nat.shiftRight_eq_div_pow]
    norm_num
    omega
  have hland : (imm * 4 + r) &&& 3 = r := by
    rw [land_3]
    omega
  have himm' : toI32 imm = (imm : Int) := by
    rw [toI32, if_pos]
    have : (2 : Nat) ^ 16 ≤ 2 ^ 31 := by norm_num
    omega
  have hv' : toI32 v < 2 ^ 31 := by
    rw [toI32]
    by_cases hc : v < 2 ^ 31
    · rw [if_pos hc]
      exact_mod_cast hc
    · rw [if_neg hc]
      have : (v : Int) < 2 ^ 32 := by exact_mod_cast hv32
      omega
  have hup : toI32 v - toI32 imm < 2 ^ 31 := by
    rw [himm']
    have : (0 : Int) ≤ (imm : Int) := Int.ofNat_nonneg imm
    omega
  rw [execute_eq p _ hw, decode_opcode_encode _ _ (by rw [hoper]; exact h18),
      decode_operand_encode _ _ (by norm_num) (by rw [hoper]; exact h18), hoper]
  simp only [dispatch]
  rw [if_neg (by norm_num), if_neg (by norm_num), if_neg (by norm_num), if_pos (by trivial)]
  rw [hshift, hland]
  simp only [hv]
  rw [if_neg (by omega)]
  by_cases h1 : 0 < toI32 v - toI32 imm
  · rw [if_pos h1, if_pos h1]
  · rw [if_neg h1, if_neg h1]
    by_cases h2 : toI32 v - toI32 imm = 0
    · rw [if_pos h2, if_pos h2]
    · rw [if_neg h2, if_neg h2, if_pos (by omega)]

/-- Witness for C5: the spec example `cmp 8 r2` with `registers[2] = 8`
sets the flag to 2 (equal). -/
theorem C5_compare_flag_witness :
    execute_instruction cmp8_processor =
      some { cmp8_processor with flag_register :=
        (if 0 < toI32 8 - toI32 8 then 1
         else if toI32 8 - toI32 8 = 0 then 2
         else 3) } :=
  C5_compare_flag cmp8_processor 8 2 8 (by decide) (by decide) (by decide)
    (by decide) (by decide) (by decide)


/-- C6: one cycle of the run loop finishes exactly when, after the
instruction executes, the halt flag is set or the pc has reached 63; every
finishing cycle resets the pc to 0 and the halt flag to false, and
otherwise the loop continues with the pc incremented.  The nop program (no
halt instruction anywhere) therefore terminates precisely when the pc
reaches 63 — after exactly 64 cycles — leaving the machine in its reset,
reusable state. -/
theorem C6_run_termination :
    (∀ p q, execute_instruction p = some q →
      ((q.program_counter = 63 ∨ q.halt = true) →
        step p = some (StepResult.finished { q with program_counter := 0, halt := false })) ∧
      (¬ (q.program_counter = 63 ∨ q.halt = true) →
        step p = some (StepResult.next { q with program_counter := q.program_counter + 1 })) ∧
      (∀ f, step p = some (StepResult.finished f) →
        f.program_counter = 0 ∧ f.halt = false)) ∧
    run Processor.new (List.replicate 64 0) 64 = some Processor.new ∧
    run Processor.new (List.replicate 64 0) 63 = none := by
  refine ⟨?_, by decide, by decide⟩
  intro p q hq
  refine ⟨?_, ?_, ?_⟩
  · intro hc
    simp only [step, hq]
    rw [if_pos hc]
  · intro hc
    simp only [step, hq]
    rw [if_neg hc]
  · intro f hf
    simp only [step, hq] at hf
    by_cases hc : q.program_counter = 63 ∨ q.halt = true
    · rw [if_pos hc] at hf
      simp only [Option.some.injEq, StepResult.finished.injEq] at hf
      rw [← hf]
      exact ⟨rfl, rfl⟩
    · rw [if_neg hc] at hf
      simp at hf

/-- Witness for C6: the fresh processor executes the nop at address 0 and
the cycle continues with the pc advanced to 1. -/
theorem C6_run_termination_witness :
    step Processor.new = some (StepResult.next { Processor.new with program_counter := 1 }) :=
  ((C6_run_termination.1 Processor.new Processor.new (by decide)).2.1 (by decide))


/-- C7: serializing a sequence of 32-bit words to little-endian bytes and
deserializing the bytes yields the original sequence. -/
theorem C7_serializer_roundtrip (ws : List Nat) (h : ∀ w ∈ ws, w < 2 ^ 32) :
    bin_raw_as_machine_code (machine_code_as_bin_raw ws) = ws := by
  induction ws with
  | nil => rfl
  | cons w ws ih =>
      have hw : w < 2 ^ 32 := h w (List.mem_cons_self ..)
      have hrest := ih (fun x hx => h x (List.mem_cons_of_mem _ hx))
      rw [machine_code_as_bin_raw, to_le_bytes]
      simp only [List.cons_append, List.nil_append]
      rw [bin_raw_as_machine_code, hrest, from_le_bytes]
      congr 1
      have h32 : (2 : Nat) ^ 32 = 4294967296 := by norm_num
      rw [h32] at hw
      norm_num
      omega

/-- Witness for C7 at a concrete word sequence. -/
theorem C7_serializer_roundtrip_witness :
    bin_raw_as_machine_code (machine_code_as_bin_raw [5, 4294967295, 0]) = [5, 4294967295, 0] :=
  C7_serializer_roundtrip [5, 4294967295, 0] (by decide)

/-- C8 counterexample: five bytes — a count that is not a multiple of 4 —
deserialize without any error to the single word 1; the trailing byte 7 is
silently dropped, refuting the claim that such input fails. -/
theorem C8_truncated_input_no_error_cex :
    bin_raw_as_machine_code [1, 0, 0, 0, 7] = [1] ∧ [1, 0, 0, 0, 7].length % 4 ≠ 0 := by
  constructor
  · decide
  · decide

/-- C8 amended: deserialization never fails; it consumes exactly 4 bytes
per word from the front, producing one word per complete 4-byte chunk and
silently ignoring the trailing `length % 4` bytes. -/
theorem C8_amended_silent_truncation (bs : List Nat) :
    bin_raw_as_machine_code bs = bin_raw_as_machine_code (bs.take (4 * (bs.length / 4))) ∧
    (bin_raw_as_machine_code bs).length = bs.length / 4 := by
  induction bs using bin_raw_as_machine_code.induct with
  | case1 b0 b1 b2 b3 rest ih =>
      have hlen : (b0 :: b1 :: b2 :: b3 :: rest).length = rest.length + 4 := by simp
      have hdiv : (rest.length + 4) / 4 = rest.length / 4 + 1 := by omega
      constructor
      · rw [bin_raw_as_machine_code, hlen, hdiv]
        have : 4 * (rest.length / 4 + 1) = 4 * (rest.length / 4) + 4 := by omega
        rw [this]
        simp only [List.take_succ_cons]
        rw [bin_raw_as_machine_code, ← ih.1]
      · rw [bin_raw_as_machine_code, hlen, hdiv]
        simp [ih.2]
  | case2 bs h =>
      match bs, h with
      | [], _ => exact ⟨rfl, rfl⟩
      | [b0], _ => exact ⟨by simp [bin_raw_as_machine_code], by simp [bin_raw_as_machine_code]⟩
      | [b0, b1], _ => exact ⟨by simp [bin_raw_as_machine_code], by simp [bin_raw_as_machine_code]⟩
      | [b0, b1, b2], _ =>
          exact ⟨by simp [bin_raw_as_machine_code], by simp [bin_raw_as_machine_code]⟩
      | b0 :: b1 :: b2 :: b3 :: rest, h => exact (h b0 b1 b2 b3 rest rfl).elim


/-- C9 (code bug): the disassembler prints opcode 6 as `jgt` and opcode 7
as `jeq` (long forms likewise swapped), while the assembler maps the
mnemonic `jeq` to opcode 6 and `jgt` to opcode 7, and execution treats
opcode 6 as the equality branch (flag code 2, see `cond_jump_spec`).  The
disassembler therefore contradicts the table the claim states. -/
theorem C9_disassembler_mnemonic_swap :
    get_opcode_name 6 false = "jgt" ∧ get_opcode_name 7 false = "jeq" ∧
    get_opcode_name_long 6 = "JUMP IF GREATER THAN" ∧
    get_opcode_name_long 7 = "JUMP IF EQUAL" ∧
    mnemonic_opcode "jeq" = 6 ∧ mnemonic_opcode "jgt" = 7 := by
  refine ⟨?_, ?_, ?_, ?_, ?_, ?_⟩ <;> decide

/-- C10 counterexample: the conditional jump `jeq 0` with the flag set to
2 is not total: the pc update computes `0 - 1` on a usize, which aborts a
checked build (and wraps far outside 0-63 otherwise), so execution panics
rather than staying in the valid range. -/
theorem C10_target_zero_panics_cex :
    execute_instruction jeq0_processor = none ∧ jeq0_processor.flag_register = 2 := by
  constructor
  · decide
  · decide

/-- C10 amended: for conditional-jump targets of at least 1 execution is
total and keeps the pc within 0-63: a taken branch sets the pc to
`target - 1 ≤ 30` and an untaken branch leaves the pc where it was (below
64 whenever the fetch itself was in range); the claim fails only at
target 0, where the unsigned `target - 1` underflows. -/
theorem C10_amended_cond_jump_total (p : Processor) (op c t : Nat)
    (hop : (op = 6 ∧ c = 2) ∨ (op = 7 ∧ c = 1) ∨ (op = 8 ∧ c = 3))
    (ht1 : 1 ≤ t) (ht : t < 32)
    (hpc : p.program_counter < 64)
    (hw : fetch_instruction p = some (encode op t)) :
    ∃ q, execute_instruction p = some q ∧ q.program_counter < 64 := by
  have hspec := cond_jump_spec p op c t hop ht1 ht hw
  by_cases hf : p.flag_register = c
  · rw [if_pos hf] at hspec
    exact ⟨_, hspec, by simp; omega⟩
  · rw [if_neg hf] at hspec
    exact ⟨p, hspec, hpc⟩

/-- Witness for C10: the taken `jlt 2` with flag 3 executes without a
panic and leaves the pc in range. -/
theorem C10_amended_cond_jump_total_witness :
    ∃ q, execute_instruction jlt2_processor = some q ∧ q.program_counter < 64 :=
  C10_amended_cond_jump_total jlt2_processor 8 3 2 (by norm_num) (by norm_num) (by norm_num)
    (by decide) (by decide)


end CpuSim
